import Mathlib

/-!
Shallow embedding of the two core audio components of the Joshua repository:
the adaptive playout buffer (`JoshuaAudioProcessor`, src/unnamed/part_000) and
the capture chunker (`JoshuaMicProcessor`,
src/frontend/joshua-frontend/joshua-mic-processor.js).

Samples are modelled as exact rationals; sample counts as naturals; the
signed quantities of the source (`remainingPartialBufferSamples`, the
available-sample count) as integers.  The worklet globals `sampleRate` and
the output block length `outputs[0][0].length` are explicit parameters
`rate` and `L`.  JavaScript while-loops are modelled with an explicit step
function iterated on fuel; the render loop is always invoked with fuel that
provably suffices (see the termination theorems below).
-/

attribute [local semireducible] Rat.mul Rat.add Rat.sub Rat.inv

namespace Joshua

/-- Math.round(mili * sampleRate / 1000) of the source, on naturals:
floor(x + 1/2) written with integer division. -/
def asSamples (rate mili : ℕ) : ℕ := (2 * (mili * rate) + 1000) / 2000

/-- DEFAULT_MAX_BUFFER_MS = 5 * 60 * 1000. -/
def DEFAULT_MAX_BUFFER_MS : ℕ := 5 * 60 * 1000

/-- frameSize = asSamples(80); this.initialBufferSamples = 1 * frameSize. -/
def initialBufferSamples (rate : ℕ) : ℕ := 1 * asSamples rate 80

/-- this.partialBufferIncrement = asSamples(500). -/
def partialBufferIncrement (rate : ℕ) : ℕ := asSamples rate 500

/-- this.maxPartialWithIncrements = asSamples(6000). -/
def maxPartialWithIncrements (rate : ℕ) : ℕ := asSamples rate 6000

/-- this.maxBufferSamplesIncrement = asSamples(500). -/
def maxBufferSamplesIncrement (rate : ℕ) : ℕ := asSamples rate 500

/-- this.maxMaxBufferWithIncrements = asSamples(6000). -/
def maxMaxBufferWithIncrements (rate : ℕ) : ℕ := asSamples rate 6000

/-- Mutable state of a `JoshuaAudioProcessor` instance (the debug counter
`pidx` is omitted; it only gates console output). -/
structure PBState where
  frames : List (List ℚ)
  offsetInFirstBuffer : ℕ
  firstOut : Bool
  remainingPartialBufferSamples : ℤ
  timeInStream : ℚ
  totalAudioPlayed : ℚ
  actualAudioPlayed : ℚ
  maxDelay : ℚ
  minDelay : ℚ
  partialBufferSamples : ℕ
  maxBufferSamples : ℕ
  started : Bool
deriving DecidableEq, Repr

/-- initState(): empty queue, metrics reset, adaptive parameters back to the
defaults asSamples(10) and asSamples(DEFAULT_MAX_BUFFER_MS). -/
def initState (rate : ℕ) : PBState :=
  { frames := []
    offsetInFirstBuffer := 0
    firstOut := false
    remainingPartialBufferSamples := 0
    timeInStream := 0
    totalAudioPlayed := 0
    actualAudioPlayed := 0
    maxDelay := 0
    minDelay := 2000
    partialBufferSamples := asSamples rate 10
    maxBufferSamples := asSamples rate DEFAULT_MAX_BUFFER_MS
    started := false }

/-- currentSamples(): sum of queued frame lengths minus the head offset
(signed, exactly as the JavaScript subtraction). -/
def currentSamples (s : PBState) : ℤ :=
  (((s.frames.map List.length).sum : ℕ) : ℤ) - (s.offsetInFirstBuffer : ℤ)

/-- totalMaxBufferSamples() = maxBufferSamples + partialBufferSamples +
initialBufferSamples. -/
def totalMaxBufferSamples (rate : ℕ) (s : PBState) : ℕ :=
  s.maxBufferSamples + s.partialBufferSamples + initialBufferSamples rate

/-- start(): arm playback. -/
def start (s : PBState) : PBState :=
  { s with started := true
           remainingPartialBufferSamples := (s.partialBufferSamples : ℤ)
           firstOut := true }

/-- resetStart(): drop back to not-started. -/
def resetStart (s : PBState) : PBState := { s with started := false }

/-- canPlay() = started && frames.length > 0 && remainingPartialBufferSamples <= 0. -/
def canPlay (s : PBState) : Bool :=
  s.started && !s.frames.isEmpty && decide (s.remainingPartialBufferSamples ≤ 0)

/-- State of the drop-oldest trim loop in processFrame: the queue, the head
offset, and the total number of samples removed so far (the source adds
`to_remove / sampleRate` to timeInStream at each iteration; the model adds
`removed / rate` once at the end, which is the same rational). -/
structure TrimSt where
  frames : List (List ℚ)
  offsetInFirstBuffer : ℕ
  removed : ℕ
deriving DecidableEq, Repr

/-- Available samples of a trim-loop state. -/
def TrimSt.cur (t : TrimSt) : ℤ :=
  (((t.frames.map List.length).sum : ℕ) : ℤ) - (t.offsetInFirstBuffer : ℤ)

/-- One iteration of the trim loop body (only ever applied under the loop
guard `cur > target`, which forces the queue to be non-empty in every
reachable state; an empty queue is returned unchanged, where the source
would fault). -/
def trimStep (target : ℕ) (t : TrimSt) : TrimSt :=
  match t.frames with
  | [] => t
  | first :: rest =>
    let to_remove := min (first.length - t.offsetInFirstBuffer)
                         (t.cur - (target : ℤ)).toNat
    let offset := t.offsetInFirstBuffer + to_remove
    if offset = first.length then
      { frames := rest, offsetInFirstBuffer := 0, removed := t.removed + to_remove }
    else
      { frames := first :: rest, offsetInFirstBuffer := offset,
        removed := t.removed + to_remove }

/-- The trim loop `while (currentSamples() > initial + partial) {...}`,
iterated on fuel. -/
def trimGo (target : ℕ) : ℕ → TrimSt → TrimSt
  | 0, t => t
  | fuel + 1, t =>
    if (target : ℤ) < t.cur then trimGo target fuel (trimStep target t) else t

/-- Telemetry message posted at the end of every processFrame call. -/
structure Telemetry where
  totalAudioPlayed : ℚ
  actualAudioPlayed : ℚ
  delay : ℚ
  minDelay : ℚ
  maxDelay : ℚ
deriving DecidableEq, Repr

/-- The overflow test of processFrame:
`currentSamples() >= totalMaxBufferSamples()`. -/
def overflowTriggered (rate : ℕ) (s : PBState) : Bool :=
  decide ((totalMaxBufferSamples rate s : ℤ) ≤ currentSamples s)

/-- The start-threshold check at the top of processFrame:
`if (this.currentSamples() >= this.initialBufferSamples && !this.started) this.start()`. -/
def startPhase (rate : ℕ) (s : PBState) : PBState :=
  if (initialBufferSamples rate : ℤ) ≤ currentSamples s ∧ s.started = false
  then start s else s

/-- processFrame(frame), invoked by the "audio" message handler after
`this.frames.push(frame)`; the argument state already holds the appended
frame.  Returns the new state and the telemetry message posted. -/
def processFrame (rate : ℕ) (s : PBState) : PBState × Telemetry :=
  let s₁ := startPhase rate s
  let s₂ :=
    if overflowTriggered rate s₁ then
      let target := initialBufferSamples rate + s₁.partialBufferSamples
      let t := trimGo target ((s₁.frames.map List.length).sum + s₁.frames.length)
                 { frames := s₁.frames, offsetInFirstBuffer := s₁.offsetInFirstBuffer,
                   removed := 0 }
      { s₁ with frames := t.frames
                offsetInFirstBuffer := t.offsetInFirstBuffer
                timeInStream := s₁.timeInStream + (t.removed : ℚ) / (rate : ℚ)
                maxBufferSamples :=
                  min (maxMaxBufferWithIncrements rate)
                    (s₁.maxBufferSamples + maxBufferSamplesIncrement rate) }
    else s₁
  (s₂, { totalAudioPlayed := s₂.totalAudioPlayed
         actualAudioPlayed := s₂.actualAudioPlayed
         delay := (currentSamples s₂ : ℚ) / (rate : ℚ)
         minDelay := s₂.minDelay
         maxDelay := s₂.maxDelay })

/-- The "audio" message handler: push the frame, then processFrame. -/
def onAudio (rate : ℕ) (s : PBState) (frame : List ℚ) : PBState × Telemetry :=
  processFrame rate { s with frames := s.frames ++ [frame] }

/-- State of the drain loop in process(): the queue, the head offset, the
output block being filled, the write index, and the anyAudio flag. -/
structure DrainSt where
  frames : List (List ℚ)
  offsetInFirstBuffer : ℕ
  out : List ℚ
  outIdx : ℕ
  anyAudio : Bool
deriving DecidableEq, Repr

/-- The `x > 1e-4 || x < -1e-4` effective-silence test. -/
def audible (x : ℚ) : Bool := decide ((1 : ℚ) / 10000 < x) || decide (x < -((1 : ℚ) / 10000))

/-- Loop guard of the drain loop: `out_idx < output.length && this.frames.length`. -/
def drainGuard (L : ℕ) (d : DrainSt) : Bool := decide (d.outIdx < L) && !d.frames.isEmpty

/-- One iteration of the drain loop body (applied only under the guard, so
the queue is non-empty; an empty queue is returned unchanged). -/
def drainStep (L : ℕ) (d : DrainSt) : DrainSt :=
  match d.frames with
  | [] => d
  | first :: rest =>
    let to_copy := min (first.length - d.offsetInFirstBuffer) (L - d.outIdx)
    let out := d.out.take d.outIdx ++ (first.drop d.offsetInFirstBuffer).take to_copy
                 ++ d.out.drop (d.outIdx + to_copy)
    let anyAudio := d.anyAudio || out.any audible
    let offset := d.offsetInFirstBuffer + to_copy
    let outIdx := d.outIdx + to_copy
    if offset = first.length then
      { frames := rest, offsetInFirstBuffer := 0, out := out, outIdx := outIdx,
        anyAudio := anyAudio }
    else
      { frames := first :: rest, offsetInFirstBuffer := offset, out := out,
        outIdx := outIdx, anyAudio := anyAudio }

/-- The drain loop `while (out_idx < output.length && this.frames.length)`,
iterated on fuel. -/
def drainGo (L : ℕ) : ℕ → DrainSt → DrainSt
  | 0, d => d
  | fuel + 1, d => if drainGuard L d then drainGo L fuel (drainStep L d) else d

/-- Fade-in loop `for (i < out_idx) output[i] *= i / out_idx`. -/
def fadeIn (out : List ℚ) (n : ℕ) : List ℚ :=
  out.mapIdx fun i x => if i < n then x * ((i : ℚ) / (n : ℚ)) else x

/-- Fade-out loop `for (i < out_idx) output[i] *= (out_idx - i) / out_idx`. -/
def fadeOut (out : List ℚ) (n : ℕ) : List ℚ :=
  out.mapIdx fun i x => if i < n then x * (((n : ℚ) - (i : ℚ)) / (n : ℚ)) else x

/-- The drain loop of one render tick, started on the state's queue with a
zero-filled output block of length `L`, write index 0 and anyAudio false,
with fuel equal to the loop measure at entry (which provably suffices). -/
def drainD (L : ℕ) (s : PBState) : DrainSt :=
  drainGo L (L + s.frames.length)
    { frames := s.frames, offsetInFirstBuffer := s.offsetInFirstBuffer,
      out := List.replicate L 0, outIdx := 0, anyAudio := false }

/-- process(inputs, outputs): one render tick.  `L` is the output block
length; the host hands the callback a zero-filled block.  Returns the new
state and the produced output block. -/
def process (rate L : ℕ) (s : PBState) : PBState × List ℚ :=
  let delay := (currentSamples s : ℚ) / (rate : ℚ)
  let s₁ := if canPlay s then
              { s with maxDelay := max s.maxDelay delay,
                       minDelay := min s.minDelay delay }
            else s
  let output : List ℚ := List.replicate L 0
  if canPlay s₁ = false then
    ({ s₁ with
        totalAudioPlayed :=
          if 0 < s₁.actualAudioPlayed then s₁.totalAudioPlayed + (L : ℚ) / (rate : ℚ)
          else s₁.totalAudioPlayed
        remainingPartialBufferSamples := s₁.remainingPartialBufferSamples - (L : ℤ) },
     output)
  else
    let d := drainD L s₁
    let out₁ := if s₁.firstOut then fadeIn d.out d.outIdx else d.out
    let s₂ := { s₁ with frames := d.frames, offsetInFirstBuffer := d.offsetInFirstBuffer,
                        firstOut := false }
    let underrun := decide (d.outIdx < L) && !d.anyAudio
    let s₃ := if underrun then
                resetStart
                  { s₂ with
                    partialBufferSamples := min
                      (s₂.partialBufferSamples + partialBufferIncrement rate)
                      (maxPartialWithIncrements rate) }
              else s₂
    let out₂ := if underrun then fadeOut out₁ d.outIdx else out₁
    ({ s₃ with
        totalAudioPlayed := s₃.totalAudioPlayed + (L : ℚ) / (rate : ℚ)
        actualAudioPlayed := s₃.actualAudioPlayed + (d.outIdx : ℚ) / (rate : ℚ)
        timeInStream := s₃.timeInStream + (d.outIdx : ℚ) / (rate : ℚ) },
     out₂)

/-- Operations that drive a buffer instance: an "audio" message, a render
tick, or a "reset" message. -/
inductive Op where
  | push (frame : List ℚ)
  | tick
  | reset
deriving DecidableEq, Repr

/-- One operation applied to a state. -/
def stepOp (rate L : ℕ) (s : PBState) : Op → PBState
  | Op.push f => (onAudio rate s f).1
  | Op.tick => (process rate L s).1
  | Op.reset => initState rate

/-- Run a sequence of operations from a state. -/
def runOps (rate L : ℕ) (s : PBState) : List Op → PBState
  | [] => s
  | op :: ops => runOps rate L (stepOp rate L s op) ops

/-- The telemetry messages emitted while running a sequence of operations:
one per "audio" message (from processFrame), none from ticks or resets. -/
def runMsgs (rate L : ℕ) (s : PBState) : List Op → List Telemetry
  | [] => []
  | Op.push f :: ops =>
      (onAudio rate s f).2 :: runMsgs rate L (onAudio rate s f).1 ops
  | Op.tick :: ops => runMsgs rate L (process rate L s).1 ops
  | Op.reset :: ops => runMsgs rate L (initState rate) ops

/-- Total number of samples contained in the pushed frames of a run. -/
def pushedSamples : List Op → ℕ
  | [] => 0
  | Op.push f :: ops => f.length + pushedSamples ops
  | _ :: ops => pushedSamples ops

/-- Number of "audio" pushes in a run. -/
def pushCount : List Op → ℕ
  | [] => 0
  | Op.push _ :: ops => 1 + pushCount ops
  | _ :: ops => pushCount ops

end Joshua

namespace JoshuaMic

/-- this.TARGET_SAMPLE_RATE = 24000. -/
def TARGET_SAMPLE_RATE : ℕ := 24000

/-- this.SAMPLES_PER_CHUNK = 24000 * 0.08; the double-precision product is
exactly 1920. -/
def SAMPLES_PER_CHUNK : ℕ := 1920

/-- this.CHUNK_DURATION = 0.08 (seconds). -/
def CHUNK_DURATION : ℚ := 8 / 100

/-- resampleTo24kHz(inputData, sourceSampleRate): identity copy at the
target rate, otherwise nearest-neighbour selection.  With ratio =
sourceSampleRate / 24000, outputLength = floor(length / ratio) and
srcIndex = floor(i * ratio), both written with exact integer division
(`inputData[srcIndex] || 0` is an out-of-range / falsy guard, modelled by
`getD _ 0`). -/
def resampleTo24kHz (inputData : List ℚ) (sourceSampleRate : ℕ) : List ℚ :=
  if sourceSampleRate = TARGET_SAMPLE_RATE then inputData
  else
    let outputLength := inputData.length * TARGET_SAMPLE_RATE / sourceSampleRate
    (List.range outputLength).map fun i =>
      inputData.getD (i * sourceSampleRate / TARGET_SAMPLE_RATE) 0

/-- Mutable state of a `JoshuaMicProcessor` instance. -/
structure MicState where
  pcmBuffer : List ℚ
  isRecording : Bool
deriving DecidableEq, Repr

/-- The "start" command handler: recording on, buffer cleared. -/
def startMic (_ : MicState) : MicState := { pcmBuffer := [], isRecording := true }

/-- The "stop" command handler: recording off (buffer untouched). -/
def stopMic (s : MicState) : MicState := { s with isRecording := false }

/-- One chunk message: `{type audioChunk, data, sampleRate, duration, samples}`. -/
structure ChunkMsg where
  data : List ℚ
  sampleRate : ℕ
  duration : ℚ
  samples : ℕ
deriving DecidableEq, Repr

/-- Body of the chunk-emission loop, iterated on fuel: each iteration
splices exactly SAMPLES_PER_CHUNK samples off the front of the buffer. -/
def emitChunksGo : ℕ → List ℚ → List (List ℚ) × List ℚ
  | 0, buf => ([], buf)
  | fuel + 1, buf =>
    if SAMPLES_PER_CHUNK ≤ buf.length then
      let tail := emitChunksGo fuel (buf.drop SAMPLES_PER_CHUNK)
      (buf.take SAMPLES_PER_CHUNK :: tail.1, tail.2)
    else ([], buf)

/-- The chunk-emission loop
`while (this.pcmBuffer.length >= this.SAMPLES_PER_CHUNK) { splice... }`:
returns the emitted chunks in order and the remaining buffer.  Fuel equal
to the buffer length always suffices (each iteration removes 1920 > 0
samples). -/
def emitChunks (buf : List ℚ) : List (List ℚ) × List ℚ :=
  emitChunksGo buf.length buf

/-- process(inputs, outputs, parameters) of the mic worklet, with the mono
input channel and the worklet-global sampleRate as explicit arguments.
Returns the new state and the chunk messages posted this callback. -/
def micProcess (s : MicState) (inputChannel : List ℚ) (sampleRate : ℕ) :
    MicState × List ChunkMsg :=
  if s.isRecording = false then (s, [])
  else if inputChannel.isEmpty then (s, [])
  else
    let resampledData := resampleTo24kHz inputChannel sampleRate
    let buf := s.pcmBuffer ++ resampledData
    let r := emitChunks buf
    ({ s with pcmBuffer := r.2 },
     r.1.map fun c =>
       { data := c, sampleRate := TARGET_SAMPLE_RATE, duration := CHUNK_DURATION,
         samples := c.length })

/-- Run a sequence of callbacks, collecting every chunk message emitted. -/
def runMic (s : MicState) : List (List ℚ × ℕ) → MicState × List ChunkMsg
  | [] => (s, [])
  | (block, rate) :: rest =>
    let r := micProcess s block rate
    let t := runMic r.1 rest
    (t.1, r.2 ++ t.2)

/-- The concatenation of the resampled versions of a run's input blocks. -/
def resampledAll : List (List ℚ × ℕ) → List ℚ
  | [] => []
  | (block, rate) :: rest => resampleTo24kHz block rate ++ resampledAll rest

/-- Well-formedness of an emitted chunk message: exactly SAMPLES_PER_CHUNK
samples, and the reported count matches. -/
def chunkOk (m : ChunkMsg) : Bool :=
  (m.data.length == SAMPLES_PER_CHUNK) && (m.samples == SAMPLES_PER_CHUNK)

end JoshuaMic

namespace Joshua

/-- The head-offset well-formedness of the frame queue: on an empty queue
the offset is zero; on a non-empty queue the offset never exceeds the head
frame's length, and reaches it only for a (transient) zero-length head
frame. -/
def headOk : List (List ℚ) → ℕ → Prop
  | [], offset => offset = 0
  | f :: _, offset => offset ≤ f.length ∧ (offset = f.length → f.length = 0)

instance headOk.instDecidable : ∀ (frames : List (List ℚ)) (offset : ℕ),
    Decidable (headOk frames offset)
  | [], offset => inferInstanceAs (Decidable (offset = 0))
  | f :: _, offset =>
      inferInstanceAs (Decidable (offset ≤ f.length ∧ (offset = f.length → f.length = 0)))

/-- The queue invariant of a playout-buffer state. -/
def StateOk (s : PBState) : Prop := headOk s.frames s.offsetInFirstBuffer

instance StateOk.instDecidable (s : PBState) : Decidable (StateOk s) :=
  inferInstanceAs (Decidable (headOk _ _))

/-- Available samples of a drain-loop state. -/
def dAvail (d : DrainSt) : ℤ :=
  (((d.frames.map List.length).sum : ℕ) : ℤ) - (d.offsetInFirstBuffer : ℤ)

/-- Termination measure of the drain loop: remaining room in the output
block plus the number of queued frames. -/
def dMeasure (L : ℕ) (d : DrainSt) : ℕ := (L - d.outIdx) + d.frames.length

/-- Termination measure of the trim loop: samples still to drop plus the
number of queued frames. -/
def tMeasure (target : ℕ) (t : TrimSt) : ℕ :=
  (t.cur - (target : ℤ)).toNat + t.frames.length

/-! ### Drain-loop lemmas -/

lemma drainGuard_outIdx_lt (L : ℕ) (d : DrainSt) (hg : drainGuard L d = true) :
    d.outIdx < L := by
  simp only [drainGuard, Bool.and_eq_true, decide_eq_true_eq] at hg
  exact hg.1

lemma drainGuard_frames_ne (L : ℕ) (d : DrainSt) (hg : drainGuard L d = true) :
    d.frames ≠ [] := by
  intro h
  simp [drainGuard, h] at hg

lemma headOk_drainStep (L : ℕ) (d : DrainSt) (hg : drainGuard L d = true)
    (h : headOk d.frames d.offsetInFirstBuffer) :
    headOk (drainStep L d).frames (drainStep L d).offsetInFirstBuffer := by
  obtain ⟨frames, off, out, outIdx, anyA⟩ := d
  cases frames with
  | nil => simp [drainGuard] at hg
  | cons first rest =>
    simp only [headOk] at h
    simp only [drainStep]
    have h1 : min (first.length - off) (L - outIdx) ≤ first.length - off :=
      Nat.min_le_left _ _
    split
    next he =>
      dsimp only
      cases rest with
      | nil => simp [headOk]
      | cons g tail => exact ⟨Nat.zero_le _, fun hh => hh.symm⟩
    next he =>
      dsimp only
      exact ⟨by omega, fun hh => absurd hh he⟩

lemma dMeasure_drainStep (L : ℕ) (d : DrainSt) (hg : drainGuard L d = true)
    (h : headOk d.frames d.offsetInFirstBuffer) :
    dMeasure L (drainStep L d) < dMeasure L d := by
  obtain ⟨frames, off, out, outIdx, anyA⟩ := d
  have hidx : outIdx < L := drainGuard_outIdx_lt L _ hg
  cases frames with
  | nil => simp [drainGuard] at hg
  | cons first rest =>
    simp only [headOk] at h
    simp only [drainStep]
    have h1 : min (first.length - off) (L - outIdx) ≤ first.length - off :=
      Nat.min_le_left _ _
    have h2 : min (first.length - off) (L - outIdx) = 0 →
        first.length - off = 0 ∨ L - outIdx = 0 := fun hz =>
      Nat.min_eq_zero_iff.mp hz
    split
    next he => dsimp only [dMeasure]; simp only [List.length_cons]; omega
    next he => dsimp only [dMeasure]; simp only [List.length_cons]; omega

lemma dAvail_drainStep_le (L : ℕ) (d : DrainSt) (hg : drainGuard L d = true)
    (h : headOk d.frames d.offsetInFirstBuffer) :
    dAvail (drainStep L d) ≤ dAvail d := by
  obtain ⟨frames, off, out, outIdx, anyA⟩ := d
  cases frames with
  | nil => simp [drainGuard] at hg
  | cons first rest =>
    simp only [headOk] at h
    simp only [drainStep]
    have h1 : min (first.length - off) (L - outIdx) ≤ first.length - off :=
      Nat.min_le_left _ _
    split
    next he =>
      dsimp only [dAvail]
      simp only [List.map_cons, List.sum_cons]
      push_cast
      omega
    next he =>
      dsimp only [dAvail]
      simp only [List.map_cons, List.sum_cons]
      push_cast
      omega

lemma headOk_drainGo (L fuel : ℕ) (d : DrainSt)
    (h : headOk d.frames d.offsetInFirstBuffer) :
    headOk (drainGo L fuel d).frames (drainGo L fuel d).offsetInFirstBuffer := by
  induction fuel generalizing d with
  | zero => exact h
  | succ fuel ih =>
    rw [drainGo]
    split
    next hg => exact ih _ (headOk_drainStep L d hg h)
    next hg => exact h

lemma dAvail_drainGo_le (L fuel : ℕ) (d : DrainSt)
    (h : headOk d.frames d.offsetInFirstBuffer) :
    dAvail (drainGo L fuel d) ≤ dAvail d := by
  induction fuel generalizing d with
  | zero => exact le_refl _
  | succ fuel ih =>
    rw [drainGo]
    split
    next hg =>
      exact le_trans (ih _ (headOk_drainStep L d hg h)) (dAvail_drainStep_le L d hg h)
    next hg => exact le_refl _

lemma drainGo_succ_eq (L : ℕ) (fuel : ℕ) (d : DrainSt)
    (h : headOk d.frames d.offsetInFirstBuffer) (hm : dMeasure L d ≤ fuel) :
    drainGo L (fuel + 1) d = drainGo L fuel d := by
  induction fuel generalizing d with
  | zero =>
    have hf : d.frames = [] := by
      simp only [dMeasure, Nat.add_eq_zero, Nat.le_zero] at hm
      exact List.length_eq_zero.mp hm.2
    have hgf : drainGuard L d = false := by simp [drainGuard, hf]
    rw [drainGo, drainGo, hgf]
    simp
  | succ fuel ih =>
    rw [drainGo]
    conv_rhs => rw [drainGo]
    by_cases hg : drainGuard L d = true
    · rw [if_pos hg, if_pos hg]
      exact ih _ (headOk_drainStep L d hg h)
        (by have := dMeasure_drainStep L d hg h; omega)
    · rw [if_neg (by simpa using hg), if_neg (by simpa using hg)]

lemma drainGo_add_eq (L : ℕ) (d : DrainSt)
    (h : headOk d.frames d.offsetInFirstBuffer) :
    ∀ k, drainGo L (dMeasure L d + k) d = drainGo L (dMeasure L d) d
  | 0 => rfl
  | k + 1 => by
    have he : dMeasure L d + (k + 1) = (dMeasure L d + k) + 1 := rfl
    rw [he, drainGo_succ_eq L (dMeasure L d + k) d h (Nat.le_add_right _ _),
        drainGo_add_eq L d h k]

lemma drainGo_fuel_eq (L fuel : ℕ) (d : DrainSt)
    (h : headOk d.frames d.offsetInFirstBuffer) (hm : dMeasure L d ≤ fuel) :
    drainGo L fuel d = drainGo L (dMeasure L d) d := by
  obtain ⟨k, rfl⟩ : ∃ k, fuel = dMeasure L d + k := ⟨fuel - dMeasure L d, by omega⟩
  exact drainGo_add_eq L d h k

/-! ### Trim-loop lemmas -/

lemma trimStep_spec (target : ℕ) (t : TrimSt) (hg : (target : ℤ) < t.cur)
    (h : headOk t.frames t.offsetInFirstBuffer) :
    headOk (trimStep target t).frames (trimStep target t).offsetInFirstBuffer ∧
    (target : ℤ) ≤ (trimStep target t).cur ∧
    tMeasure target (trimStep target t) < tMeasure target t := by
  obtain ⟨frames, off, removed⟩ := t
  cases frames with
  | nil =>
    exfalso
    simp only [headOk] at h
    simp only [TrimSt.cur, List.map_nil, List.sum_nil, h] at hg
    omega
  | cons first rest =>
    simp only [headOk] at h
    obtain ⟨hle, hz⟩ := h
    have hcase : off < first.length ∨ (off = 0 ∧ first.length = 0) := by
      rcases Nat.lt_or_ge off first.length with hlt | hge
      · exact Or.inl hlt
      · have he2 : off = first.length := Nat.le_antisymm hle hge
        have := hz he2
        omega
    have hcur : TrimSt.cur ⟨first :: rest, off, removed⟩ =
        ((first.length + (rest.map List.length).sum : ℕ) : ℤ) - (off : ℤ) := by
      simp only [TrimSt.cur, List.map_cons, List.sum_cons]
    simp only [trimStep]
    have hminA := Nat.min_le_left (first.length - off)
        ((TrimSt.cur ⟨first :: rest, off, removed⟩ - (target : ℤ)).toNat)
    have hminB := Nat.min_le_right (first.length - off)
        ((TrimSt.cur ⟨first :: rest, off, removed⟩ - (target : ℤ)).toNat)
    rw [hcur] at hg hminA hminB ⊢
    split
    next he =>
      refine ⟨?_, ?_, ?_⟩
      · dsimp only
        cases rest with
        | nil => simp [headOk]
        | cons g tail => exact ⟨Nat.zero_le _, fun hh => hh.symm⟩
      · dsimp only [TrimSt.cur]
        omega
      · dsimp only [tMeasure, TrimSt.cur]
        simp only [hcur, List.map_cons, List.sum_cons, List.length_cons]
        omega
    next he =>
      refine ⟨?_, ?_, ?_⟩
      · dsimp only
        exact ⟨by omega, fun hh => absurd hh he⟩
      · dsimp only [TrimSt.cur]
        simp only [List.map_cons, List.sum_cons]
        omega
      · dsimp only [tMeasure, TrimSt.cur]
        simp only [List.map_cons, List.sum_cons, List.length_cons]
        rcases hcase with hlt | ⟨hoff0, hlen0⟩
        · omega
        · omega

/-- With fuel at least the loop measure, the trim loop lands exactly on the
target available-sample count (and preserves the head-offset invariant). -/
lemma trimGo_exact (target fuel : ℕ) (t : TrimSt)
    (h : headOk t.frames t.offsetInFirstBuffer) (hge : (target : ℤ) ≤ t.cur)
    (hm : tMeasure target t ≤ fuel) :
    (trimGo target fuel t).cur = target ∧
    headOk (trimGo target fuel t).frames (trimGo target fuel t).offsetInFirstBuffer := by
  induction fuel generalizing t with
  | zero =>
    have : t.cur = target := by
      simp only [tMeasure, Nat.le_zero, Nat.add_eq_zero] at hm
      omega
    exact ⟨this, h⟩
  | succ fuel ih =>
    rw [trimGo]
    by_cases hg : (target : ℤ) < t.cur
    · rw [if_pos hg]
      obtain ⟨h', hge', hm'⟩ := trimStep_spec target t hg h
      exact ih _ h' hge' (by omega)
    · rw [if_neg hg]
      exact ⟨by omega, h⟩

lemma tMeasure_le_sum (target : ℕ) (t : TrimSt) :
    tMeasure target t ≤ (t.frames.map List.length).sum + t.frames.length := by
  simp only [tMeasure, TrimSt.cur]
  omega

/-! ### State-level lemmas -/

@[simp] lemma startPhase_frames (rate : ℕ) (s : PBState) :
    (startPhase rate s).frames = s.frames := by
  unfold startPhase
  split <;> rfl

@[simp] lemma startPhase_offset (rate : ℕ) (s : PBState) :
    (startPhase rate s).offsetInFirstBuffer = s.offsetInFirstBuffer := by
  unfold startPhase
  split <;> rfl

@[simp] lemma startPhase_partialBuf (rate : ℕ) (s : PBState) :
    (startPhase rate s).partialBufferSamples = s.partialBufferSamples := by
  unfold startPhase
  split <;> rfl

@[simp] lemma startPhase_maxBuf (rate : ℕ) (s : PBState) :
    (startPhase rate s).maxBufferSamples = s.maxBufferSamples := by
  unfold startPhase
  split <;> rfl

@[simp] lemma currentSamples_startPhase (rate : ℕ) (s : PBState) :
    currentSamples (startPhase rate s) = currentSamples s := by
  unfold currentSamples
  simp

@[simp] lemma canPlay_minmax (s : PBState) (a b : ℚ) :
    canPlay { s with maxDelay := a, minDelay := b } = canPlay s := by
  simp [canPlay]

lemma headOk_append (frames : List (List ℚ)) (off : ℕ) (f : List ℚ)
    (h : headOk frames off) : headOk (frames ++ [f]) off := by
  cases frames with
  | nil =>
    simp only [headOk] at h
    subst h
    exact ⟨Nat.zero_le _, fun hh => hh.symm⟩
  | cons g rest => exact h

lemma currentSamples_append (s : PBState) (f : List ℚ) :
    currentSamples { s with frames := s.frames ++ [f] } =
      currentSamples s + (f.length : ℤ) := by
  simp only [currentSamples, List.map_append, List.sum_append, List.map_cons,
    List.sum_cons, List.map_nil, List.sum_nil]
  push_cast
  ring

lemma currentSamples_nonneg (s : PBState) (h : StateOk s) :
    0 ≤ currentSamples s := by
  unfold StateOk at h
  rcases hsf : s.frames with _ | ⟨g, rest⟩ <;> rw [hsf] at h
  · simp only [headOk] at h
    simp [currentSamples, hsf, h]
  · simp only [headOk] at h
    unfold currentSamples
    rw [hsf]
    simp only [List.map_cons, List.sum_cons]
    omega

/-- The state produced by processFrame when the overflow policy fires. -/
lemma processFrame_overflow (rate : ℕ) (s : PBState)
    (htr : overflowTriggered rate (startPhase rate s) = true) :
    (processFrame rate s).1 =
      (let s₁ := startPhase rate s
       let target := initialBufferSamples rate + s₁.partialBufferSamples
       let t := trimGo target ((s₁.frames.map List.length).sum + s₁.frames.length)
          { frames := s₁.frames, offsetInFirstBuffer := s₁.offsetInFirstBuffer,
            removed := 0 }
       { s₁ with frames := t.frames
                 offsetInFirstBuffer := t.offsetInFirstBuffer
                 timeInStream := s₁.timeInStream + (t.removed : ℚ) / (rate : ℚ)
                 maxBufferSamples :=
                   min (maxMaxBufferWithIncrements rate)
                     (s₁.maxBufferSamples + maxBufferSamplesIncrement rate) }) := by
  unfold processFrame
  dsimp only
  rw [if_pos htr]

/-- The state produced by processFrame when the overflow policy does not
fire. -/
lemma processFrame_noOverflow (rate : ℕ) (s : PBState)
    (htr : overflowTriggered rate (startPhase rate s) = false) :
    (processFrame rate s).1 = startPhase rate s := by
  unfold processFrame
  dsimp only
  rw [if_neg (by simp [htr])]

lemma stateOk_onAudio (rate : ℕ) (s : PBState) (f : List ℚ) (h : StateOk s) :
    StateOk (onAudio rate s f).1 := by
  unfold onAudio
  set s₀ : PBState := { s with frames := s.frames ++ [f] } with hs₀
  have h₀ : headOk s₀.frames s₀.offsetInFirstBuffer := headOk_append _ _ _ h
  by_cases htr : overflowTriggered rate (startPhase rate s₀) = true
  · rw [StateOk, processFrame_overflow rate s₀ htr]
    dsimp only
    refine (trimGo_exact _ _ _ ?_ ?_ ?_).2
    · simpa using h₀
    · simp only [overflowTriggered, decide_eq_true_eq] at htr
      have hst : TrimSt.cur ⟨(startPhase rate s₀).frames, (startPhase rate s₀).offsetInFirstBuffer, 0⟩ = currentSamples (startPhase rate s₀) := rfl
      rw [hst]
      unfold totalMaxBufferSamples at htr
      push_cast at htr ⊢
      omega
    · exact tMeasure_le_sum _ _
  · rw [StateOk, processFrame_noOverflow rate s₀ (by simpa using htr)]
    simpa using h₀

lemma currentSamples_onAudio_le (rate : ℕ) (s : PBState) (f : List ℚ)
    (h : StateOk s) :
    currentSamples (onAudio rate s f).1 ≤ currentSamples s + (f.length : ℤ) := by
  unfold onAudio
  set s₀ : PBState := { s with frames := s.frames ++ [f] } with hs₀
  have h₀ : headOk s₀.frames s₀.offsetInFirstBuffer := headOk_append _ _ _ h
  have hc₀ : currentSamples s₀ = currentSamples s + (f.length : ℤ) :=
    currentSamples_append s f
  by_cases htr : overflowTriggered rate (startPhase rate s₀) = true
  · have htr2 : (totalMaxBufferSamples rate (startPhase rate s₀) : ℤ) ≤
        currentSamples (startPhase rate s₀) := by
      simpa [overflowTriggered] using htr
    have hstart : TrimSt.cur ⟨(startPhase rate s₀).frames, (startPhase rate s₀).offsetInFirstBuffer, 0⟩ = currentSamples (startPhase rate s₀) := rfl
    have hex := trimGo_exact
      (initialBufferSamples rate + (startPhase rate s₀).partialBufferSamples)
      (((startPhase rate s₀).frames.map List.length).sum + (startPhase rate s₀).frames.length)
      ⟨(startPhase rate s₀).frames, (startPhase rate s₀).offsetInFirstBuffer, 0⟩
      (by simpa using h₀)
      (by rw [hstart]
          unfold totalMaxBufferSamples at htr2
          push_cast at htr2 ⊢
          omega)
      (tMeasure_le_sum _ _)
    rw [processFrame_overflow rate s₀ htr]
    dsimp only
    have hx := hex.1
    unfold TrimSt.cur at hx
    unfold currentSamples
    dsimp only
    unfold totalMaxBufferSamples at htr2
    simp only [currentSamples_startPhase, startPhase_partialBuf, startPhase_maxBuf] at htr2 hx ⊢
    rw [hc₀] at htr2
    unfold currentSamples at htr2
    omega
  · rw [processFrame_noOverflow rate s₀ (by simpa using htr)]
    rw [currentSamples_startPhase, hc₀]

/-- A render tick that cannot play emits a zero block, adds the block
duration to totalAudioPlayed only when non-silent audio has ever been
produced, and decrements the partial-buffer countdown. -/
lemma process_notCanPlay (rate L : ℕ) (s : PBState) (h : canPlay s = false) :
    process rate L s =
      ({ s with
          totalAudioPlayed :=
            if 0 < s.actualAudioPlayed then s.totalAudioPlayed + (L : ℚ) / (rate : ℚ)
            else s.totalAudioPlayed
          remainingPartialBufferSamples :=
            s.remainingPartialBufferSamples - (L : ℤ) },
       List.replicate L 0) := by
  unfold process
  simp [h]

/-- A render tick that can play runs the drain loop and the two fade
checks; this equation names all the pieces. -/
lemma process_canPlay (rate L : ℕ) (s : PBState) (h : canPlay s = true) :
    process rate L s =
      (let s₁ : PBState :=
        { s with
            maxDelay := max s.maxDelay ((currentSamples s : ℚ) / (rate : ℚ)),
            minDelay := min s.minDelay ((currentSamples s : ℚ) / (rate : ℚ)) }
       let d := drainD L s₁
       let out₁ := if s₁.firstOut then fadeIn d.out d.outIdx else d.out
       let s₂ : PBState :=
         { s₁ with frames := d.frames, offsetInFirstBuffer := d.offsetInFirstBuffer,
                   firstOut := false }
       let underrun := decide (d.outIdx < L) && !d.anyAudio
       let s₃ := if underrun then
                   resetStart
                     { s₂ with
                       partialBufferSamples := min
                         (s₂.partialBufferSamples + partialBufferIncrement rate)
                         (maxPartialWithIncrements rate) }
                 else s₂
       let out₂ := if underrun then fadeOut out₁ d.outIdx else out₁
       ({ s₃ with
           totalAudioPlayed := s₃.totalAudioPlayed + (L : ℚ) / (rate : ℚ)
           actualAudioPlayed := s₃.actualAudioPlayed + (d.outIdx : ℚ) / (rate : ℚ)
           timeInStream := s₃.timeInStream + (d.outIdx : ℚ) / (rate : ℚ) },
        out₂)) := by
  unfold process
  simp [h]

lemma stateOk_process (rate L : ℕ) (s : PBState) (h : StateOk s) :
    StateOk (process rate L s).1 := by
  by_cases hcp : canPlay s = true
  · rw [process_canPlay rate L s hcp]
    dsimp only
    split
    next =>
      exact headOk_drainGo L _ ⟨s.frames, s.offsetInFirstBuffer, List.replicate L 0, 0, false⟩ h
    next =>
      exact headOk_drainGo L _ ⟨s.frames, s.offsetInFirstBuffer, List.replicate L 0, 0, false⟩ h
  · rw [process_notCanPlay rate L s (by simpa using hcp)]
    exact h

lemma currentSamples_process_le (rate L : ℕ) (s : PBState) (h : StateOk s) :
    currentSamples (process rate L s).1 ≤ currentSamples s := by
  by_cases hcp : canPlay s = true
  · rw [process_canPlay rate L s hcp]
    dsimp only
    have hav := dAvail_drainGo_le L (L + s.frames.length)
      ⟨s.frames, s.offsetInFirstBuffer, List.replicate L 0, 0, false⟩ h
    unfold dAvail at hav
    dsimp only at hav
    unfold currentSamples
    split <;> (dsimp only; exact hav)
  · rw [process_notCanPlay rate L s (by simpa using hcp)]
    exact le_refl _

/-! ### Run-level lemmas -/

lemma stateOk_initState (rate : ℕ) : StateOk (initState rate) := rfl

lemma stateOk_stepOp (rate L : ℕ) (s : PBState) (op : Op) (h : StateOk s) :
    StateOk (stepOp rate L s op) := by
  cases op with
  | push f => exact stateOk_onAudio rate s f h
  | tick => exact stateOk_process rate L s h
  | reset => exact stateOk_initState rate

lemma stateOk_runOps (rate L : ℕ) (ops : List Op) (s : PBState) (h : StateOk s) :
    StateOk (runOps rate L s ops) := by
  induction ops generalizing s with
  | nil => exact h
  | cons op ops ih => exact ih _ (stateOk_stepOp rate L s op h)

lemma currentSamples_runOps_le (rate L : ℕ) (ops : List Op) (s : PBState)
    (h : StateOk s) :
    currentSamples (runOps rate L s ops) ≤ currentSamples s + (pushedSamples ops : ℤ) := by
  induction ops generalizing s with
  | nil => simp [runOps, pushedSamples]
  | cons op ops ih =>
    cases op with
    | push f =>
      have h1 := ih (onAudio rate s f).1 (stateOk_onAudio rate s f h)
      have h2 := currentSamples_onAudio_le rate s f h
      simp only [runOps, stepOp, pushedSamples] at h1 ⊢
      push_cast
      omega
    | tick =>
      have h1 := ih (process rate L s).1 (stateOk_process rate L s h)
      have h2 := currentSamples_process_le rate L s h
      simp only [runOps, stepOp, pushedSamples] at h1 ⊢
      omega
    | reset =>
      have h1 := ih (initState rate) (stateOk_initState rate)
      have h2 : currentSamples (initState rate) = 0 := rfl
      have h3 := currentSamples_nonneg s h
      simp only [runOps, stepOp, pushedSamples] at h1 ⊢
      omega

end Joshua

namespace JoshuaMic

/-! ### Capture-chunker lemmas -/

lemma emitChunksGo_spec (fuel : ℕ) : ∀ buf : List ℚ, buf.length ≤ fuel →
    (∀ c ∈ (emitChunksGo fuel buf).1, c.length = SAMPLES_PER_CHUNK) ∧
    (emitChunksGo fuel buf).2.length < SAMPLES_PER_CHUNK ∧
    (emitChunksGo fuel buf).1.flatten ++ (emitChunksGo fuel buf).2 = buf := by
  induction fuel with
  | zero =>
    intro buf hlen
    have : buf = [] := List.length_eq_zero.mp (Nat.le_zero.mp hlen)
    subst this
    refine ⟨by simp [emitChunksGo], by simp [emitChunksGo]; decide, by simp [emitChunksGo]⟩
  | succ fuel ih =>
    intro buf hlen
    by_cases h1920 : SAMPLES_PER_CHUNK ≤ buf.length
    · have hdrop : (buf.drop SAMPLES_PER_CHUNK).length ≤ fuel := by
        simp only [List.length_drop]
        have : 0 < SAMPLES_PER_CHUNK := by decide
        omega
      obtain ⟨ihall, ihrem, ihjoin⟩ := ih (buf.drop SAMPLES_PER_CHUNK) hdrop
      rw [emitChunksGo]
      rw [if_pos h1920]
      refine ⟨?_, ihrem, ?_⟩
      · intro c hc
        rcases List.mem_cons.mp hc with hc | hc
        · subst hc
          simp only [List.length_take]
          omega
        · exact ihall c hc
      · simp only [List.flatten_cons, List.append_assoc, ihjoin]
        exact List.take_append_drop _ _
    · rw [emitChunksGo, if_neg h1920]
      exact ⟨by simp, by dsimp only; omega, by simp⟩

lemma resampleTo24kHz_nil (rate : ℕ) : resampleTo24kHz [] rate = [] := by
  unfold resampleTo24kHz
  split
  · rfl
  · simp

/-- The full specification of a run of mic callbacks from a state with a
short buffer: every chunk is exactly SAMPLES_PER_CHUNK samples, the final
buffer is shorter than a chunk, and chunks ++ buffer reassemble the
resampled input stream appended to the initial buffer. -/
lemma runMic_spec (inputs : List (List ℚ × ℕ)) : ∀ s : MicState,
    s.isRecording = true → s.pcmBuffer.length < SAMPLES_PER_CHUNK →
    ((runMic s inputs).2.all chunkOk) = true ∧
    (runMic s inputs).1.pcmBuffer.length < SAMPLES_PER_CHUNK ∧
    ((runMic s inputs).2.map ChunkMsg.data).flatten ++ (runMic s inputs).1.pcmBuffer =
      s.pcmBuffer ++ resampledAll inputs ∧
    (runMic s inputs).1.isRecording = true := by
  induction inputs with
  | nil =>
    intro s hrec hlen
    exact ⟨rfl, hlen, by simp [runMic, resampledAll], hrec⟩
  | cons p rest ih =>
    intro s hrec hlen
    obtain ⟨block, brate⟩ := p
    by_cases hemp : block.isEmpty
    · have hskip : micProcess s block brate = (s, []) := by
        unfold micProcess
        rw [if_neg (by simp [hrec]), if_pos hemp]
      obtain ⟨ih1, ih2, ih3, ih4⟩ := ih s hrec hlen
      have hblock : block = [] := List.isEmpty_iff.mp hemp
      subst hblock
      refine ⟨?_, ?_, ?_, ?_⟩ <;>
        simp only [runMic, hskip, List.nil_append, resampledAll,
          resampleTo24kHz_nil, List.append_nil] <;>
        first
          | exact ih1
          | exact ih2
          | exact ih3
          | exact ih4
    · have hrun : micProcess s block brate =
          ({ s with pcmBuffer := (emitChunks (s.pcmBuffer ++ resampleTo24kHz block brate)).2 },
           (emitChunks (s.pcmBuffer ++ resampleTo24kHz block brate)).1.map fun c =>
             { data := c, sampleRate := TARGET_SAMPLE_RATE, duration := CHUNK_DURATION,
               samples := c.length }) := by
        unfold micProcess
        rw [if_neg (by simp [hrec]), if_neg hemp]
      obtain ⟨eall, erem, ejoin⟩ :=
        emitChunksGo_spec (s.pcmBuffer ++ resampleTo24kHz block brate).length
          (s.pcmBuffer ++ resampleTo24kHz block brate) (le_refl _)
      obtain ⟨ih1, ih2, ih3, ih4⟩ :=
        ih { s with pcmBuffer := (emitChunks (s.pcmBuffer ++ resampleTo24kHz block brate)).2 }
          hrec (by simpa [emitChunks] using erem)
      refine ⟨?_, ?_, ?_, ?_⟩
      · simp only [runMic, hrun, List.all_append, Bool.and_eq_true]
        refine ⟨?_, ih1⟩
        simp only [List.all_eq_true, List.mem_map]
        rintro m ⟨c, hc, rfl⟩
        have := eall c (by simpa [emitChunks] using hc)
        simp [chunkOk, this]
      · simpa only [runMic, hrun] using ih2
      · simp only [runMic, hrun, List.map_append, List.flatten_append]
        have hdata : (((emitChunks (s.pcmBuffer ++ resampleTo24kHz block brate)).1.map
            fun c => ChunkMsg.mk c TARGET_SAMPLE_RATE CHUNK_DURATION c.length).map
            ChunkMsg.data) =
            (emitChunks (s.pcmBuffer ++ resampleTo24kHz block brate)).1 := by
          simp only [List.map_map]
          have hco : (ChunkMsg.data ∘ fun c : List ℚ =>
              ChunkMsg.mk c TARGET_SAMPLE_RATE CHUNK_DURATION c.length) = id := by
            funext c
            rfl
          rw [hco, List.map_id]
        rw [List.append_assoc, ih3]
        simp only [resampledAll]
        rw [hdata, ← List.append_assoc]
        rw [show (emitChunks (s.pcmBuffer ++ resampleTo24kHz block brate)).1.flatten ++
            (emitChunks (s.pcmBuffer ++ resampleTo24kHz block brate)).2 =
            s.pcmBuffer ++ resampleTo24kHz block brate from ejoin]
        simp [List.append_assoc]
      · simpa only [runMic, hrun] using ih4

end JoshuaMic

namespace Joshua

@[simp] lemma drainD_minmax (L : ℕ) (s : PBState) (a b : ℚ) :
    drainD L { s with maxDelay := a, minDelay := b } = drainD L s := rfl

end Joshua

open Joshua JoshuaMic

/-! ## The claims -/

/-- C8: while recording (from a fresh start), every emitted chunk holds
exactly samplesPerChunk samples taken in order from the front of the
accumulator, the accumulator retains fewer than samplesPerChunk samples
after each call, and the chunks followed by the remaining accumulator
reassemble exactly the concatenation of all resampled input — no sample
lost or duplicated, no partial chunk emitted. -/
theorem C8_chunker (inputs : List (List ℚ × ℕ)) :
    ((runMic (startMic ⟨[], false⟩) inputs).2.all chunkOk) = true ∧
    (runMic (startMic ⟨[], false⟩) inputs).1.pcmBuffer.length < SAMPLES_PER_CHUNK ∧
    ((runMic (startMic ⟨[], false⟩) inputs).2.map ChunkMsg.data).flatten ++
      (runMic (startMic ⟨[], false⟩) inputs).1.pcmBuffer = resampledAll inputs := by
  obtain ⟨h1, h2, h3, _⟩ := runMic_spec inputs (startMic ⟨[], false⟩) rfl (by decide)
  exact ⟨h1, h2, by simpa using h3⟩

/-- C9: the resampler's output at index i is the input sample at index
floor(i * nativeRate / targetRate); at equal rates it is the identity; at
twice the target rate the output length is half the input length. -/
theorem C9_resample :
    (∀ (input : List ℚ) (src i : ℕ), i < (resampleTo24kHz input src).length →
      (resampleTo24kHz input src).getD i 0 =
        input.getD (i * src / TARGET_SAMPLE_RATE) 0) ∧
    (∀ input : List ℚ, resampleTo24kHz input TARGET_SAMPLE_RATE = input) ∧
    (∀ input : List ℚ,
      (resampleTo24kHz input (2 * TARGET_SAMPLE_RATE)).length = input.length / 2) := by
  refine ⟨?_, ?_, ?_⟩
  · intro input src i hi
    by_cases hsrc : src = TARGET_SAMPLE_RATE
    · subst hsrc
      unfold resampleTo24kHz at hi ⊢
      rw [if_pos rfl] at hi ⊢
      rw [Nat.mul_div_cancel i (by decide : 0 < TARGET_SAMPLE_RATE)]
    · unfold resampleTo24kHz at hi ⊢
      rw [if_neg hsrc] at hi ⊢
      simp only [List.length_map, List.length_range] at hi
      rw [List.getD_eq_getElem _ _ (by simpa using hi)]
      simp [List.getElem_map, List.getElem_range]
  · intro input
    unfold resampleTo24kHz
    rw [if_pos rfl]
  · intro input
    unfold resampleTo24kHz
    rw [if_neg (by decide)]
    simp only [List.length_map, List.length_range, TARGET_SAMPLE_RATE]
    omega

/-- Witness for C9: a 4-sample block at 48 kHz resamples to every other
sample; index 1 reads input index 2. -/
theorem C9_resample_witness :
    (resampleTo24kHz [1, 2, 3, 4] 48000).getD 1 0 =
      [(1 : ℚ), 2, 3, 4].getD (1 * 48000 / TARGET_SAMPLE_RATE) 0 :=
  C9_resample.1 [1, 2, 3, 4] 48000 1 (by decide)

/-- C10: the per-tick drain loop terminates for every queue state
satisfying the head-offset invariant, zero-length frames included: extra
fuel beyond the measure (remaining output room + queued-frame count) never
changes the result, and each guarded iteration either strictly advances
the output write index or strictly shrinks the queue. -/
theorem C10_drain_terminates :
    (∀ (L fuel : ℕ) (d : DrainSt), headOk d.frames d.offsetInFirstBuffer →
      dMeasure L d ≤ fuel → drainGo L fuel d = drainGo L (dMeasure L d) d) ∧
    (∀ (L : ℕ) (d : DrainSt), drainGuard L d = true →
      headOk d.frames d.offsetInFirstBuffer →
      d.outIdx < (drainStep L d).outIdx ∨
        (drainStep L d).frames.length < d.frames.length) := by
  refine ⟨fun L fuel d h hm => drainGo_fuel_eq L fuel d h hm, ?_⟩
  intro L d hg h
  obtain ⟨frames, off, out, outIdx, anyA⟩ := d
  have hidx : outIdx < L := drainGuard_outIdx_lt L _ hg
  cases frames with
  | nil => simp [drainGuard] at hg
  | cons first rest =>
    simp only [headOk] at h
    simp only [drainStep]
    have h1 : min (first.length - off) (L - outIdx) ≤ first.length - off :=
      Nat.min_le_left _ _
    have h2 : min (first.length - off) (L - outIdx) = 0 →
        first.length - off = 0 ∨ L - outIdx = 0 := fun hz => Nat.min_eq_zero_iff.mp hz
    split
    next he =>
      right
      dsimp only
      simp only [List.length_cons]
      omega
    next he =>
      left
      dsimp only
      omega

/-- Witness for C10: a queue starting with a zero-length frame, an output
block of length 2 and surplus fuel — the loop result is fuel-independent
and the first iteration retires the empty head frame. -/
theorem C10_drain_terminates_witness :
    drainGo 2 10 ⟨[[], [1]], 0, [0, 0], 0, false⟩ =
      drainGo 2 (dMeasure 2 ⟨[[], [1]], 0, [0, 0], 0, false⟩)
        ⟨[[], [1]], 0, [0, 0], 0, false⟩ ∧
    ((⟨[[], [1]], 0, [0, 0], 0, false⟩ : DrainSt).outIdx <
        (drainStep 2 ⟨[[], [1]], 0, [0, 0], 0, false⟩).outIdx ∨
      (drainStep 2 ⟨[[], [1]], 0, [0, 0], 0, false⟩).frames.length <
        (⟨[[], [1]], 0, [0, 0], 0, false⟩ : DrainSt).frames.length) :=
  ⟨C10_drain_terminates.1 2 10 ⟨[[], [1]], 0, [0, 0], 0, false⟩ (by decide) (by decide),
   C10_drain_terminates.2 2 ⟨[[], [1]], 0, [0, 0], 0, false⟩ (by decide) (by decide)⟩

/-- C7 counterexample: pushing a zero-length frame into a fresh buffer
leaves a non-empty queue whose head offset (0) is not strictly less than
the head frame's length (0) — the strict invariant of the claim fails. -/
theorem C7_counterexample :
    (onAudio 24000 (initState 24000) []).1.frames ≠ [] ∧
    ¬((onAudio 24000 (initState 24000) []).1.offsetInFirstBuffer <
        (onAudio 24000 (initState 24000) []).1.frames.headI.length) := by
  decide

/-- C7 amended: in every state reachable by push, reset and renderTick
operations, the head offset never exceeds the head frame's length and can
equal it only for a zero-length head frame (on an empty queue the offset
is zero), and the available sample count is the sum of the queued frame
lengths minus the head offset. -/
theorem C7_queue_invariant (rate L : ℕ) (ops : List Op) :
    StateOk (runOps rate L (initState rate) ops) ∧
    currentSamples (runOps rate L (initState rate) ops) =
      ((((runOps rate L (initState rate) ops).frames.map List.length).sum : ℕ) : ℤ) -
        ((runOps rate L (initState rate) ops).offsetInFirstBuffer : ℤ) :=
  ⟨stateOk_runOps rate L ops _ (stateOk_initState rate), rfl⟩

/-- C1 counterexample: a playable tick whose queue supplies 1 of 4 samples
and whose copied sample (1/2) is audible — the claim's conditions hold,
yet the tick leaves started true, leaves partialBufferSamples unchanged,
and applies no fade-out to the output. -/
theorem C1_counterexample :
    canPlay { initState 24000 with frames := [[1/2]], started := true } = true ∧
    (drainD 4 { initState 24000 with frames := [[1/2]], started := true }).outIdx < 4 ∧
    (drainD 4 { initState 24000 with frames := [[1/2]], started := true }).anyAudio = true ∧
    (process 24000 4 { initState 24000 with frames := [[1/2]], started := true }).1.started = true ∧
    (process 24000 4 { initState 24000 with frames := [[1/2]], started := true }).1.partialBufferSamples =
      (initState 24000).partialBufferSamples ∧
    (process 24000 4 { initState 24000 with frames := [[1/2]], started := true }).2 = [1/2, 0, 0, 0] := by
  decide

/-- C1 amended: when a playable tick copies fewer samples than the block
length AND the copied samples are all effectively silent (anyAudio false),
the tick applies the linear fade-out ramp across the copied samples,
forces started back to false, and grows partialBufferSamples by the fixed
increment capped at its upper bound. -/
theorem C1_underrun_fadeout (rate L : ℕ) (s : PBState)
    (hc : canPlay s = true)
    (hu : (drainD L s).outIdx < L)
    (ha : (drainD L s).anyAudio = false) :
    (process rate L s).1.started = false ∧
    (process rate L s).1.partialBufferSamples =
      min (s.partialBufferSamples + partialBufferIncrement rate)
          (maxPartialWithIncrements rate) ∧
    (process rate L s).2 =
      fadeOut (if s.firstOut then fadeIn (drainD L s).out (drainD L s).outIdx
               else (drainD L s).out) (drainD L s).outIdx := by
  rw [process_canPlay rate L s hc]
  dsimp only
  rw [drainD_minmax]
  simp only [decide_eq_true hu, ha, Bool.not_false, Bool.and_self, if_true]
  refine ⟨?_, ?_, ?_⟩ <;> trivial

/-- Witness for C1 amended: one queued zero sample, block length 4 — the
tick fades out, un-starts, and grows the partial buffer. -/
theorem C1_underrun_fadeout_witness :
    (process 24000 4 { initState 24000 with frames := [[0]], started := true }).1.started = false ∧
    (process 24000 4 { initState 24000 with frames := [[0]], started := true }).1.partialBufferSamples =
      min ((initState 24000).partialBufferSamples + partialBufferIncrement 24000)
          (maxPartialWithIncrements 24000) ∧
    (process 24000 4 { initState 24000 with frames := [[0]], started := true }).2 =
      fadeOut (if ({ initState 24000 with frames := [[0]], started := true } : PBState).firstOut
               then fadeIn (drainD 4 { initState 24000 with frames := [[0]], started := true }).out
                      (drainD 4 { initState 24000 with frames := [[0]], started := true }).outIdx
               else (drainD 4 { initState 24000 with frames := [[0]], started := true }).out)
        (drainD 4 { initState 24000 with frames := [[0]], started := true }).outIdx :=
  C1_underrun_fadeout 24000 4 { initState 24000 with frames := [[0]], started := true }
    (by decide) (by decide) (by decide)

/-- C2: whenever the overflow policy triggers (post-push available count ≥
initial + partial + max), processFrame discards the oldest samples until
the available count equals exactly initial + partial, and afterwards
maxBufferSamples = min(cap, old + increment). -/
theorem C2_overflow_policy (rate : ℕ) (s : PBState) (f : List ℚ)
    (h : StateOk s)
    (htrig : (totalMaxBufferSamples rate s : ℤ) ≤ currentSamples s + (f.length : ℤ)) :
    currentSamples (onAudio rate s f).1 =
      ((initialBufferSamples rate + s.partialBufferSamples : ℕ) : ℤ) ∧
    (onAudio rate s f).1.maxBufferSamples =
      min (maxMaxBufferWithIncrements rate)
          (s.maxBufferSamples + maxBufferSamplesIncrement rate) := by
  unfold onAudio
  set s₀ : PBState := { s with frames := s.frames ++ [f] } with hs₀
  have h₀ : headOk s₀.frames s₀.offsetInFirstBuffer := headOk_append _ _ _ h
  have hc₀ : currentSamples s₀ = currentSamples s + (f.length : ℤ) :=
    currentSamples_append s f
  have htr2 : (totalMaxBufferSamples rate (startPhase rate s₀) : ℤ) ≤
      currentSamples (startPhase rate s₀) := by
    simp only [currentSamples_startPhase, hc₀]
    unfold totalMaxBufferSamples at htrig ⊢
    simp only [startPhase_partialBuf, startPhase_maxBuf]
    exact htrig
  have htr : overflowTriggered rate (startPhase rate s₀) = true := by
    simpa [overflowTriggered] using htr2
  have hstart : TrimSt.cur ⟨(startPhase rate s₀).frames, (startPhase rate s₀).offsetInFirstBuffer, 0⟩ = currentSamples (startPhase rate s₀) := rfl
  have hex := trimGo_exact
    (initialBufferSamples rate + (startPhase rate s₀).partialBufferSamples)
    (((startPhase rate s₀).frames.map List.length).sum + (startPhase rate s₀).frames.length)
    ⟨(startPhase rate s₀).frames, (startPhase rate s₀).offsetInFirstBuffer, 0⟩
    (by simpa using h₀)
    (by rw [hstart]
        unfold totalMaxBufferSamples at htr2
        push_cast at htr2 ⊢
        omega)
    (tMeasure_le_sum _ _)
  rw [processFrame_overflow rate s₀ htr]
  dsimp only
  constructor
  · have hx := hex.1
    unfold TrimSt.cur at hx
    have hp : (startPhase rate s₀).partialBufferSamples = s.partialBufferSamples := by
      simp [hs₀]
    rw [hp] at hx ⊢
    unfold currentSamples
    dsimp only
    omega
  · simp

set_option maxRecDepth 100000 in
/-- Witness for C2: at rate 1 the overflow threshold is 300 samples; one
300-sample push trims the queue to exactly 0 = initial + partial and bumps
maxBufferSamples to the 6-sample cap. -/
theorem C2_overflow_policy_witness :
    currentSamples (onAudio 1 (initState 1) (List.replicate 300 0)).1 =
      ((initialBufferSamples 1 + (initState 1).partialBufferSamples : ℕ) : ℤ) ∧
    (onAudio 1 (initState 1) (List.replicate 300 0)).1.maxBufferSamples =
      min (maxMaxBufferWithIncrements 1)
          ((initState 1).maxBufferSamples + maxBufferSamplesIncrement 1) :=
  C2_overflow_policy 1 (initState 1) (List.replicate 300 0) (by decide) (by decide)

/-- C3 counterexample: at rate 1 the start threshold is 0 samples, so a
fresh not-started buffer already has available ≥ initialBufferSamples —
yet a render tick does not transition it to started. -/
theorem C3_counterexample :
    (initState 1).started = false ∧
    (initialBufferSamples 1 : ℤ) ≤ currentSamples (initState 1) ∧
    (process 1 128 (initState 1)).1.started = false := by
  decide

/-- C3 amended: the Buffering→Started transition is performed by the push
path (processFrame), not by the render tick: a push that brings the
available count to ≥ initialBufferSamples on a not-started buffer sets
started, arms remainingPartialBufferSamples = partialBufferSamples and
sets firstOut; a render tick never sets started. -/
theorem C3_start_on_push :
    (∀ (rate : ℕ) (s : PBState) (f : List ℚ), s.started = false →
      (initialBufferSamples rate : ℤ) ≤ currentSamples s + (f.length : ℤ) →
      (onAudio rate s f).1.started = true ∧
      (onAudio rate s f).1.remainingPartialBufferSamples = (s.partialBufferSamples : ℤ) ∧
      (onAudio rate s f).1.firstOut = true) ∧
    (∀ (rate L : ℕ) (s : PBState), s.started = false →
      (process rate L s).1.started = false) := by
  constructor
  · intro rate s f hst hcur
    unfold onAudio
    set s₀ : PBState := { s with frames := s.frames ++ [f] } with hs₀
    have hc₀ : currentSamples s₀ = currentSamples s + (f.length : ℤ) :=
      currentSamples_append s f
    have hsp : startPhase rate s₀ = start s₀ := by
      unfold startPhase
      rw [if_pos ⟨by rw [hc₀]; exact hcur, hst⟩]
    by_cases htr : overflowTriggered rate (startPhase rate s₀) = true
    · rw [processFrame_overflow rate s₀ htr]
      dsimp only
      rw [hsp]
      exact ⟨rfl, rfl, rfl⟩
    · rw [processFrame_noOverflow rate s₀ (by simpa using htr)]
      rw [hsp]
      exact ⟨rfl, rfl, rfl⟩
  · intro rate L s hst
    have hcp : canPlay s = false := by simp [canPlay, hst]
    rw [process_notCanPlay rate L s hcp]
    exact hst

/-- Witness for C3: at rate 1000 an 80-sample push starts a fresh buffer;
a render tick on a fresh 24 kHz buffer leaves it not started. -/
theorem C3_start_on_push_witness :
    ((onAudio 1000 (initState 1000) (List.replicate 80 0)).1.started = true ∧
     (onAudio 1000 (initState 1000) (List.replicate 80 0)).1.remainingPartialBufferSamples =
       ((initState 1000).partialBufferSamples : ℤ) ∧
     (onAudio 1000 (initState 1000) (List.replicate 80 0)).1.firstOut = true) ∧
    (process 24000 128 (initState 24000)).1.started = false :=
  ⟨C3_start_on_push.1 1000 (initState 1000) (List.replicate 80 0) rfl (by decide),
   C3_start_on_push.2 24000 128 (initState 24000) rfl⟩

/-- C4 counterexample: a run consisting of one render tick emits zero
telemetry messages, not one per tick. -/
theorem C4_counterexample :
    (runMsgs 24000 128 (initState 24000) [Op.tick]).length = 0 := by
  decide

/-- C4 amended: exactly one telemetry message (carrying totalAudioPlayed,
actualAudioPlayed, the current delay, minDelay and maxDelay of the
post-push state) is emitted per pushed frame — the message count equals
the push count, regardless of how many render ticks occur. -/
theorem C4_telemetry_per_push :
    (∀ (rate L : ℕ) (s : PBState) (ops : List Op),
      (runMsgs rate L s ops).length = pushCount ops) ∧
    (∀ (rate : ℕ) (s : PBState) (f : List ℚ),
      (onAudio rate s f).2 =
        { totalAudioPlayed := (onAudio rate s f).1.totalAudioPlayed
          actualAudioPlayed := (onAudio rate s f).1.actualAudioPlayed
          delay := (currentSamples (onAudio rate s f).1 : ℚ) / (rate : ℚ)
          minDelay := (onAudio rate s f).1.minDelay
          maxDelay := (onAudio rate s f).1.maxDelay }) := by
  constructor
  · intro rate L s ops
    induction ops generalizing s with
    | nil => rfl
    | cons op ops ih =>
      cases op with
      | push f =>
        simp only [runMsgs, List.length_cons, pushCount, ih]
        omega
      | tick => simp only [runMsgs, pushCount, ih]
      | reset => simp only [runMsgs, pushCount, ih]
  · intro rate s f
    rfl

set_option maxRecDepth 100000 in
/-- C5 counterexample: at rate 1 a single 300-sample push has total pushed
samples equal to (not exceeding) initial + partial + max = 300, yet the
overflow policy triggers and the queued samples are discarded (0 of the
300 remain, with no tick having consumed any). -/
theorem C5_counterexample :
    (pushedSamples [Op.push (List.replicate 300 0)] : ℤ) ≤
      (initialBufferSamples 1 : ℤ) + ((initState 1).partialBufferSamples : ℤ) +
        ((initState 1).maxBufferSamples : ℤ) ∧
    overflowTriggered 1 (startPhase 1
      { initState 1 with frames := (initState 1).frames ++ [List.replicate 300 0] }) = true ∧
    currentSamples (runOps 1 128 (initState 1) [Op.push (List.replicate 300 0)]) = 0 := by
  decide

/-- C5 amended: if the cumulative pushed sample count stays strictly below
initial + partial + max (with the adaptive parameters taken at each push),
then the overflow policy never triggers and every push appends its frame
to the queue with nothing discarded. -/
theorem C5_no_drop (rate L : ℕ) (ops : List Op)
    (H : ∀ (p : List Op) (f : List ℚ) (q : List Op), ops = p ++ Op.push f :: q →
      (pushedSamples p : ℤ) + (f.length : ℤ) <
        (initialBufferSamples rate : ℤ) +
          ((runOps rate L (initState rate) p).partialBufferSamples : ℤ) +
          ((runOps rate L (initState rate) p).maxBufferSamples : ℤ)) :
    ∀ (p : List Op) (f : List ℚ) (q : List Op), ops = p ++ Op.push f :: q →
      overflowTriggered rate (startPhase rate
        { runOps rate L (initState rate) p with
            frames := (runOps rate L (initState rate) p).frames ++ [f] }) = false ∧
      (onAudio rate (runOps rate L (initState rate) p) f).1.frames =
        (runOps rate L (initState rate) p).frames ++ [f] := by
  intro p f q hops
  set sp : PBState := runOps rate L (initState rate) p with hsp
  have hOk : StateOk sp := stateOk_runOps rate L p _ (stateOk_initState rate)
  have hle : currentSamples sp ≤ currentSamples (initState rate) + (pushedSamples p : ℤ) :=
    currentSamples_runOps_le rate L p _ (stateOk_initState rate)
  have hz : currentSamples (initState rate) = 0 := rfl
  have hH := H p f q hops
  rw [← hsp] at hH
  set s₀ : PBState := { sp with frames := sp.frames ++ [f] } with hs₀
  have hc₀ : currentSamples s₀ = currentSamples sp + (f.length : ℤ) :=
    currentSamples_append sp f
  have hfalse : overflowTriggered rate (startPhase rate s₀) = false := by
    simp only [overflowTriggered, decide_eq_false_iff_not, not_le,
      currentSamples_startPhase, hc₀]
    unfold totalMaxBufferSamples
    simp only [startPhase_partialBuf, startPhase_maxBuf]
    have hp : (s₀.partialBufferSamples : ℤ) = (sp.partialBufferSamples : ℤ) := by
      simp [hs₀]
    have hm : (s₀.maxBufferSamples : ℤ) = (sp.maxBufferSamples : ℤ) := by
      simp [hs₀]
    push_cast
    rw [hp, hm]
    omega
  refine ⟨hfalse, ?_⟩
  have honly : (onAudio rate sp f).1 = startPhase rate s₀ := by
    unfold onAudio
    exact processFrame_noOverflow rate s₀ hfalse
  rw [honly, startPhase_frames]

/-- Witness for C5: a 2-sample push at rate 1 stays far below the
300-sample threshold; the overflow check is false and the frame is simply
appended. -/
theorem C5_no_drop_witness :
    overflowTriggered 1 (startPhase 1
      { runOps 1 1 (initState 1) [] with
          frames := (runOps 1 1 (initState 1) []).frames ++ [[0, 0]] }) = false ∧
    (onAudio 1 (runOps 1 1 (initState 1) []) [0, 0]).1.frames =
      (runOps 1 1 (initState 1) []).frames ++ [[0, 0]] :=
  C5_no_drop 1 1 [Op.push [0, 0]]
    (by
      intro p f q h
      cases p with
      | nil =>
        simp only [List.nil_append, List.cons.injEq, Op.push.injEq] at h
        obtain ⟨rfl, rfl⟩ := h
        decide
      | cons op p' =>
        exfalso
        cases p' <;> simp_all)
    [] [0, 0] [] rfl

/-- C6 counterexample: the very first render tick of a fresh buffer (the
Empty state, before any non-silent output has ever been produced) leaves
totalAudioPlayed at 0 instead of adding the block's duration. -/
theorem C6_counterexample :
    (process 24000 128 (initState 24000)).1.totalAudioPlayed ≠
      (initState 24000).totalAudioPlayed + (128 : ℚ) / (24000 : ℚ) := by
  decide

/-- C6 amended: every render tick of a not-started buffer outputs a full
block of silence, leaves actualAudioPlayed, minDelay and maxDelay (and the
queue) unchanged, decrements the partial-buffer countdown by the block
length, and adds the block's duration to totalAudioPlayed only when some
non-silent output has been produced before (actualAudioPlayed > 0) — in
particular totalAudioPlayed stays unchanged on every tick before the first
non-silent output. -/
theorem C6_empty_tick (rate L : ℕ) (s : PBState) (hst : s.started = false) :
    process rate L s =
      ({ s with
          totalAudioPlayed :=
            if 0 < s.actualAudioPlayed then s.totalAudioPlayed + (L : ℚ) / (rate : ℚ)
            else s.totalAudioPlayed
          remainingPartialBufferSamples :=
            s.remainingPartialBufferSamples - (L : ℤ) },
       List.replicate L 0) :=
  process_notCanPlay rate L s (by simp [canPlay, hst])

/-- Witness for C6: the fresh 24 kHz buffer under a 128-sample tick. -/
theorem C6_empty_tick_witness :
    process 24000 128 (initState 24000) =
      ({ initState 24000 with
          totalAudioPlayed :=
            if 0 < (initState 24000).actualAudioPlayed then
              (initState 24000).totalAudioPlayed + (128 : ℚ) / (24000 : ℚ)
            else (initState 24000).totalAudioPlayed
          remainingPartialBufferSamples :=
            (initState 24000).remainingPartialBufferSamples - (128 : ℤ) },
       List.replicate 128 0) :=
  C6_empty_tick 24000 128 (initState 24000) rfl
